import Mathlib

/-!
Verification of the serial device detection and firmware upload core of
`serial_utils.py`.

The development shallowly embeds the two classes of the source file:

* `SerialDeviceDetector` — port identification against the known-device
  registry (`identify_by_vid_pid`), handshake verification
  (`verify_by_handshake`), tiered device detection (`detect_device`) and
  the display view (`get_all_devices`);
* `FirmwareUploader` — connection lifecycle (`close_connection`) and the
  chunked upload protocol (`upload_firmware`).

The serial transport is an external collaborator of the source (pyserial);
it is embedded as explicit behaviour parameters: which channel operations
succeed, which raise a (caught) `SerialException`/`OSError`, and which
bytes a read returns.  Python byte strings are lists of naturals, Python
`dict` iteration order is insertion order (Python ≥ 3.7), and the
progress-percentage computation — which the source performs in Python
floats, i.e. IEEE 754 binary64 — is embedded by an exact model of
correctly rounded binary64 division and multiplication on naturals.
-/

/-- A byte value (0..255 in practice), as a natural number. -/
abbrev Byte := Nat

/-! ## Port metadata and the known-device registry -/

/-- Metadata of one enumerated serial port (an entry of
`serial.tools.list_ports.comports()`): `device` is the port name,
`vid` / `pid` the optional USB vendor and product IDs. -/
structure PortInfo where
  device : String
  descr : String
  vid : Option Nat
  pid : Option Nat
deriving Repr, DecidableEq

/-- The `KNOWN_DEVICES` dict of the source, in insertion order:
label to (vendor ID, product ID).  Two labels share the CH340 pair. -/
def KNOWN_DEVICES : List (String × Nat × Nat) :=
  [("Arduino Uno", 0x2341, 0x0043),
   ("Arduino Mega", 0x2341, 0x0010),
   ("ESP32", 0x10C4, 0xEA60),
   ("ESP32_ALT", 0x1A86, 0x7523),
   ("Arduino Nano", 0x1A86, 0x7523)]

/-- `SerialDeviceDetector.identify_by_vid_pid`: `None` when either ID is
`None`, otherwise the first registry entry whose pair equals the port's,
scanning the dict in insertion order. -/
def identify_by_vid_pid (port : PortInfo) : Option String :=
  match port.vid, port.pid with
  | some v, some p =>
      (KNOWN_DEVICES.find? (fun d => v == d.2.1 && p == d.2.2)).map (fun d => d.1)
  | _, _ => none

/-! ## Handshake verification -/

/-- `HANDSHAKE_RESPONSE = b"PONG"` as bytes. -/
def HANDSHAKE_RESPONSE : List Byte := [80, 79, 78, 71]

/-- Python's `needle in hay` on byte strings: contiguous-substring test. -/
def containsTok (needle : List Byte) : List Byte → Bool
  | [] => needle.isEmpty
  | h :: t => needle.isPrefixOf (h :: t) || containsTok needle t

/-- Behaviour of the serial channel during one handshake attempt: whether
`serial.Serial(...)` opens, whether `reset_input_buffer` and `write`
succeed, and what `read` yields (`none` = a raised
`SerialException`/`OSError`, which the source catches). -/
structure HsPort where
  openOk : Bool
  resetOk : Bool
  writeOk : Bool
  readResult : Option (List Byte)

/-- Observable outcome of `verify_by_handshake`: the returned boolean and
whether the channel was opened and closed during the call. -/
structure HsOutcome where
  result : Bool
  opened : Bool
  closed : Bool
deriving Repr, DecidableEq

/-- `SerialDeviceDetector.verify_by_handshake`: open the channel in a
`with` block (so a channel that opened is closed on every exit path),
reset the input buffer, write `b"PING\n"`, read up to
`len(HANDSHAKE_RESPONSE)` bytes, and succeed iff `b"PONG"` occurs in the
bytes read; any `SerialException`/`OSError` yields `False`. -/
def verify_by_handshake (p : HsPort) : HsOutcome :=
  if !p.openOk then
    { result := false, opened := false, closed := false }
  else if !p.resetOk then
    { result := false, opened := true, closed := true }
  else if !p.writeOk then
    { result := false, opened := true, closed := true }
  else
    match p.readResult with
    | none => { result := false, opened := true, closed := true }
    | some resp =>
        { result := containsTok HANDSHAKE_RESPONSE resp, opened := true, closed := true }

/-! ## Device detection -/

/-- A detection candidate, as the dict built by `detect_device` (the
handshake-fallback dict carries no `vid`/`pid` keys, embedded as `none`). -/
structure Candidate where
  port : String
  device_type : String
  descr : String
  vid : Option Nat
  pid : Option Nat
  verified : Bool
deriving Repr, DecidableEq

/-- The candidate dict `detect_device` builds for an identified port:
`verified` is the handshake outcome when `try_handshake` is set, else
`True` unconditionally. -/
def mkCandidate (p : PortInfo) (dt : String) (tryHs : Bool) (hs : String → Bool) : Candidate :=
  { port := p.device, device_type := dt, descr := p.descr, vid := p.vid, pid := p.pid,
    verified := if tryHs then hs p.device else true }

/-- The candidate list of `detect_device`: one candidate per port whose
`identify_by_vid_pid` result is truthy (`if device_type:` — a `None` or
empty label is skipped), in enumeration order. -/
def identifiedCandidates (ports : List PortInfo) (tryHs : Bool) (hs : String → Bool) :
    List Candidate :=
  ports.filterMap (fun p =>
    match identify_by_vid_pid p with
    | some dt => if dt = "" then none else some (mkCandidate p dt tryHs hs)
    | none => none)

/-- The dict `detect_device` returns from the handshake-on-every-port
fallback: device type `"Unknown"`, no `vid`/`pid` keys, `verified = True`. -/
def unknownCandidate (p : PortInfo) : Candidate :=
  { port := p.device, device_type := "Unknown", descr := p.descr,
    vid := none, pid := none, verified := true }

/-- `SerialDeviceDetector.detect_device`.  `ports` is what
`list_all_ports()` enumerated and `hs` gives the handshake outcome per
port name (each port's handshake runs at most once per detection).
Tiering as in the source: empty enumeration → `None`; first verified
identified candidate; else first identified candidate; else, when
`try_handshake` is set, the first port passing the handshake as an
`"Unknown"` device; else `None`. -/
def detect_device (ports : List PortInfo) (tryHs : Bool) (hs : String → Bool) :
    Option Candidate :=
  if ports.isEmpty then none
  else
    match (identifiedCandidates ports tryHs hs).filter (fun c => c.verified) with
    | c :: _ => some c
    | [] =>
      match identifiedCandidates ports tryHs hs with
      | c :: _ => some c
      | [] =>
        if tryHs then (ports.find? (fun p => hs p.device)).map unknownCandidate
        else none

/-! ## Display view -/

/-- Python's `hex(n)`: `"0x"` followed by lowercase hexadecimal digits. -/
def hexStr (n : Nat) : String := "0x" ++ String.mk (Nat.toDigits 16 n)

/-- The source's `hex(id) if id else 'N/A'`: Python truthiness, so both a
missing ID and a zero ID render as `"N/A"`. -/
def displayId : Option Nat → String
  | some v => if v = 0 then "N/A" else hexStr v
  | none => "N/A"

/-- One row of `get_all_devices`. -/
structure DeviceEntry where
  port : String
  device_type : String
  descr : String
  vidStr : String
  pidStr : String
deriving Repr, DecidableEq

/-- `SerialDeviceDetector.get_all_devices`: every enumerated port, with
the registry label when identification is truthy (`device_type or
'Unknown'`), and the IDs rendered by `displayId`. -/
def get_all_devices (ports : List PortInfo) : List DeviceEntry :=
  ports.map (fun p =>
    { port := p.device,
      device_type :=
        match identify_by_vid_pid p with
        | some dt => if dt = "" then "Unknown" else dt
        | none => "Unknown",
      descr := p.descr,
      vidStr := displayId p.vid,
      pidStr := displayId p.pid })

/-! ## IEEE 754 binary64 model for the progress percentage

The source computes `int((bytes_sent / file_size) * 100)` in Python
floats, i.e. one correctly rounded binary64 division, one correctly
rounded binary64 multiplication by `100.0`, then truncation toward zero.
A positive binary64 value in the normal range is `m * 2^(e - 52)` with a
53-bit significand `2^52 ≤ m < 2^53`; IEEE 754 rounds each operation's
exact result to the nearest such value, ties to even significand.  The
model below implements exactly that on naturals (the magnitudes reached
here are far from overflow and subnormal range). -/

/-- Fuel-driven floor of `log2` (the fuel makes it structurally
recursive, so that the kernel can evaluate it). -/
def log2F : Nat → Nat → Nat
  | 0, _ => 0
  | fuel + 1, n => if 2 ≤ n then log2F fuel (n / 2) + 1 else 0

/-- Floor of the base-2 logarithm (0 for inputs 0 and 1). -/
def floorLog2 (n : Nat) : Nat := log2F n n

/-- Round `n / d` to the nearest integer, ties to even (`d > 0`). -/
def roundNE (n d : Nat) : Nat :=
  let t := n / d
  let r := n % d
  if 2 * r < d then t
  else if d < 2 * r then t + 1
  else if t % 2 = 0 then t else t + 1

/-- A positive binary64 value `m * 2^(e - 52)`, `2^52 ≤ m < 2^53`. -/
structure F64 where
  m : Nat
  e : Int
deriving Repr, DecidableEq

/-- Renormalize after rounding: the round-up carry case `m = 2^53`. -/
def normF (m : Nat) (e : Int) : F64 :=
  if m = 2 ^ 53 then { m := 2 ^ 52, e := e + 1 } else { m := m, e := e }

/-- Correctly rounded binary64 division of positive naturals `a / b`:
find the exponent `e` with `2^e ≤ a/b < 2^(e+1)`, then round the 53-bit
significand `a/b * 2^(52-e)` to nearest, ties to even. -/
def divF (a b : Nat) : F64 :=
  let la := floorLog2 a
  let lb := floorLog2 b
  let e : Int := if b * 2 ^ la ≤ a * 2 ^ lb then (la : Int) - lb else (la : Int) - lb - 1
  let s : Int := 52 - e
  let m : Nat :=
    if 0 ≤ s then roundNE (a * 2 ^ s.toNat) b else roundNE a (b * 2 ^ (-s).toNat)
  normF m e

/-- Correctly rounded binary64 multiplication of `x` by `100.0`: the
exact product `(m * 100) * 2^(e - 52)` has a 59- or 60-bit significand,
which is rounded back to 53 bits. -/
def mulF100 (x : F64) : F64 :=
  let t := x.m * 100
  let shift := floorLog2 t - 52
  normF (roundNE t (2 ^ shift)) (x.e + shift)

/-- Truncation of a positive binary64 value toward zero (Python `int`). -/
def truncF (x : F64) : Nat :=
  if 52 ≤ x.e then x.m * 2 ^ (x.e - 52).toNat else x.m / 2 ^ (52 - x.e).toNat

/-- The source's `int((bytes_sent / file_size) * 100)` in binary64. -/
def pyPercent (bytesSent fileSize : Nat) : Nat :=
  truncF (mulF100 (divF bytesSent fileSize))

/-! ## Chunked firmware upload -/

/-- The `while True: chunk = f.read(chunk_size); if not chunk: break`
loop's view of the file: the list of chunks read.  `f.read(0)` returns
an empty byte string, so chunk size 0 reads nothing.  Structural on a
fuel argument; `readChunks` supplies sufficient fuel. -/
def readChunksF (C : Nat) : Nat → List Byte → List (List Byte)
  | 0, _ => []
  | fuel + 1, bs => if C = 0 ∨ bs = [] then [] else bs.take C :: readChunksF C fuel (bs.drop C)

/-- The chunks `upload_firmware` reads from a file with bytes `bs`. -/
def readChunks (C : Nat) (bs : List Byte) : List (List Byte) :=
  readChunksF C (bs.length + 1) bs

/-- One write call on the serial channel during an upload: the
`b"UPLOAD_START\n"` marker, a payload chunk, or the
`b"\nUPLOAD_COMPLETE\n"` marker. -/
inductive WriteMsg where
  | start
  | complete
  | data (chunk : List Byte)
deriving Repr, DecidableEq

/-- How the chunk loop of `upload_firmware` exited: normally, by a
`SerialException` from a channel write, or by an exception raised by the
caller's progress callback. -/
inductive LoopExit where
  | done
  | serialErr
  | cbErr
deriving Repr, DecidableEq

/-- Result of the chunk loop: exit kind, accumulated `bytes_sent`, the
successful payload writes, the progress-callback invocations
`(percent, bytes_sent, total)`, and the next write index. -/
structure LoopRes where
  exit : LoopExit
  sent : Nat
  writes : List WriteMsg
  calls : List (Nat × Nat × Nat)
  wIdx : Nat
deriving Repr, DecidableEq

/-- The chunk loop of `upload_firmware`, structural on fuel.  `C` is the
chunk size, `N` the file size, `hasCb` whether a progress callback was
supplied, `cbFail` the invocation index (if any) at which the callback
raises, `wFail` the channel-write index (if any) at which `write` raises
a `SerialException` (the start marker is write 0).  Per iteration, in
source order: read a chunk (loop ends on an empty read), write it,
accumulate `bytes_sent`, then invoke the callback. -/
def uploadLoopF (C N : Nat) (hasCb : Bool) (cbFail wFail : Option Nat) :
    Nat → List Byte → Nat → Nat → Nat → LoopRes
  | 0, _, sent, wIdx, _ =>
      { exit := .done, sent := sent, writes := [], calls := [], wIdx := wIdx }
  | fuel + 1, rem, sent, wIdx, cIdx =>
      if C = 0 ∨ rem = [] then
        { exit := .done, sent := sent, writes := [], calls := [], wIdx := wIdx }
      else
        let chunk := rem.take C
        if wFail = some wIdx then
          { exit := .serialErr, sent := sent, writes := [], calls := [], wIdx := wIdx }
        else
          let sent' := sent + chunk.length
          if hasCb then
            let call := (pyPercent sent' N, sent', N)
            if cbFail = some cIdx then
              { exit := .cbErr, sent := sent', writes := [.data chunk], calls := [call],
                wIdx := wIdx + 1 }
            else
              let r := uploadLoopF C N hasCb cbFail wFail fuel (rem.drop C) sent' (wIdx + 1) (cIdx + 1)
              { exit := r.exit, sent := r.sent, writes := .data chunk :: r.writes,
                calls := call :: r.calls, wIdx := r.wIdx }
          else
            let r := uploadLoopF C N hasCb cbFail wFail fuel (rem.drop C) sent' (wIdx + 1) cIdx
            { exit := r.exit, sent := r.sent, writes := .data chunk :: r.writes,
              calls := r.calls, wIdx := r.wIdx }

/-- The chunk loop on the whole file `bs` (write index 1: the start
marker was write 0). -/
def uploadLoop (C : Nat) (hasCb : Bool) (cbFail wFail : Option Nat) (bs : List Byte) : LoopRes :=
  uploadLoopF C bs.length hasCb cbFail wFail (bs.length + 1) bs 0 1 0

/-- The `dict` returned by `upload_firmware` (`bytes_sent` and
`response` are only present on success). -/
structure UploadResult where
  success : Bool
  message : String
  bytes_sent : Option Nat
  response : Option (List Byte)
deriving Repr, DecidableEq

/-- Everything observable about one `upload_firmware` call: the returned
dict, the channel writes that succeeded (in order), the callback
invocations, whether the filesystem was touched (`open(firmware_path)`),
and whether the serial connection is open when the call returns. -/
structure UploadOutcome where
  result : UploadResult
  writes : List WriteMsg
  calls : List (Nat × Nat × Nat)
  fsAccessed : Bool
  connOpenAfter : Bool
deriving Repr, DecidableEq

/-- Environment of one `upload_firmware` call: connection state, the
filesystem (`none` = `FileNotFoundError`), the arguments, the failure
behaviour of the callback and of channel writes (with the raised
exceptions' `str(e)` descriptions), and the bytes the final
`read(100)` returns. -/
structure UploadEnv where
  connOpen : Bool
  firmware_path : String
  fs : String → Option (List Byte)
  chunk_size : Nat
  hasCb : Bool
  cbFail : Option Nat
  cbErrMsg : String
  wFail : Option Nat
  serialErrMsg : String
  deviceResponse : List Byte

/-- `FirmwareUploader.upload_firmware`.  Guard: a connection that is not
open returns a failure dict before any filesystem access.  Then, inside
`try`: open the file (a missing file is caught as `FileNotFoundError`),
write the start marker, run the chunk loop, write the completion marker,
read up to 100 bytes, and return the success dict.  A `SerialException`
maps to a `Serial communication error` failure dict, any other exception
(in particular one raised by the progress callback) to an
`Upload failed` dict.  No path closes the connection. -/
def upload_firmware (env : UploadEnv) : UploadOutcome :=
  if !env.connOpen then
    { result := { success := false, message := "Serial connection not open",
                  bytes_sent := none, response := none },
      writes := [], calls := [], fsAccessed := false, connOpenAfter := env.connOpen }
  else
    match env.fs env.firmware_path with
    | none =>
        { result := { success := false,
                      message := "Firmware file not found: " ++ env.firmware_path,
                      bytes_sent := none, response := none },
          writes := [], calls := [], fsAccessed := true, connOpenAfter := true }
    | some bs =>
        if env.wFail = some 0 then
          { result := { success := false,
                        message := "Serial communication error: " ++ env.serialErrMsg,
                        bytes_sent := none, response := none },
            writes := [], calls := [], fsAccessed := true, connOpenAfter := true }
        else
          let r := uploadLoop env.chunk_size env.hasCb env.cbFail env.wFail bs
          match r.exit with
          | .serialErr =>
              { result := { success := false,
                            message := "Serial communication error: " ++ env.serialErrMsg,
                            bytes_sent := none, response := none },
                writes := .start :: r.writes, calls := r.calls,
                fsAccessed := true, connOpenAfter := true }
          | .cbErr =>
              { result := { success := false,
                            message := "Upload failed: " ++ env.cbErrMsg,
                            bytes_sent := none, response := none },
                writes := .start :: r.writes, calls := r.calls,
                fsAccessed := true, connOpenAfter := true }
          | .done =>
              if env.wFail = some r.wIdx then
                { result := { success := false,
                              message := "Serial communication error: " ++ env.serialErrMsg,
                              bytes_sent := none, response := none },
                  writes := .start :: r.writes, calls := r.calls,
                  fsAccessed := true, connOpenAfter := true }
              else
                { result := { success := true,
                              message := "Successfully uploaded " ++ toString r.sent ++ " bytes",
                              bytes_sent := some r.sent, response := some env.deviceResponse },
                  writes := .start :: r.writes ++ [.complete], calls := r.calls,
                  fsAccessed := true, connOpenAfter := true }

/-! ## Connection lifecycle -/

/-- The pyserial handle held in `self.serial_conn`: its `is_open` flag
and how many times its underlying `close()` ran. -/
structure SerialConn where
  is_open : Bool
  closeCalls : Nat
deriving Repr, DecidableEq

/-- The uploader's connection state: `self.serial_conn` is `None` until
`open_connection` first assigns it. -/
structure UploaderState where
  serial_conn : Option SerialConn
deriving Repr, DecidableEq

/-- `FirmwareUploader.close_connection`: `close()` runs only when
`self.serial_conn` is truthy and `is_open`; closing clears `is_open`. -/
def close_connection (s : UploaderState) : UploaderState :=
  match s.serial_conn with
  | some c =>
      if c.is_open then { serial_conn := some { is_open := false, closeCalls := c.closeCalls + 1 } }
      else s
  | none => s

/-! ## Helper lemmas -/

theorem head?_filter_eq_find? (p : Candidate → Bool) (l : List Candidate) :
    (l.filter p).head? = l.find? p := by
  induction l with
  | nil => rfl
  | cons a t ih =>
    by_cases h : p a
    · simp [List.filter_cons, List.find?_cons, h]
    · simp [List.filter_cons, List.find?_cons, h, ih]

theorem containsTok_iff (needle hay : List Byte) :
    containsTok needle hay = true ↔ needle <:+: hay := by
  induction hay with
  | nil =>
    simp [containsTok, List.isEmpty_iff]
  | cons h t ih =>
    rw [containsTok, Bool.or_eq_true, List.infix_cons_iff, ih, List.isPrefixOf_iff_prefix]

theorem identify_mem (p : PortInfo) (s : String) (h : identify_by_vid_pid p = some s) :
    ∃ v i, p.vid = some v ∧ p.pid = some i ∧ (s, v, i) ∈ KNOWN_DEVICES := by
  unfold identify_by_vid_pid at h
  cases hv : p.vid with
  | none => rw [hv] at h; exact absurd h (by simp)
  | some v =>
    cases hi : p.pid with
    | none => rw [hv, hi] at h; exact absurd h (by simp)
    | some i =>
      rw [hv, hi] at h
      obtain ⟨d, hd, hds⟩ := Option.map_eq_some'.mp h
      have hmem := List.mem_of_find?_eq_some hd
      have hpd := List.find?_some hd
      simp only [Bool.and_eq_true, beq_iff_eq] at hpd
      refine ⟨v, i, rfl, rfl, ?_⟩
      have : (s, v, i) = d := by
        obtain ⟨d1, d2, d3⟩ := d
        simp only at hds hpd
        simp [← hds, hpd.1, hpd.2]
      rwa [this]

theorem identify_label_ne_empty (p : PortInfo) (s : String)
    (h : identify_by_vid_pid p = some s) : s ≠ "" := by
  obtain ⟨v, i, _, _, hmem⟩ := identify_mem p s h
  have hall : ∀ d ∈ KNOWN_DEVICES, d.1 ≠ "" := by decide
  exact hall (s, v, i) hmem

theorem hexStr_ne_NA (n : Nat) : hexStr n ≠ "N/A" := by
  intro h
  have hd : ('0' :: 'x' :: (Nat.toDigits 16 n)) = ['N', '/', 'A'] := congrArg String.data h
  simp at hd

/-! ## Claim C4: registry lookup -/

/-- C4: `identify_by_vid_pid` returns no match when either ID is absent
or when the pair is not in the registry; every registered pair yields
the exact associated label by equality on both fields (the returned
label's registry entry carries exactly that pair); and each of the four
distinct registered pairs maps to its first-registered label — in
particular the shared CH340 pair `(0x1A86, 0x7523)` maps to
`"ESP32_ALT"`, the first of the two labels registered with it. -/
theorem identify_by_vid_pid_spec (port : PortInfo) :
    (port.vid = none → identify_by_vid_pid port = none) ∧
    (port.pid = none → identify_by_vid_pid port = none) ∧
    (∀ v i, port.vid = some v → port.pid = some i →
      (∀ d ∈ KNOWN_DEVICES, ¬(v = d.2.1 ∧ i = d.2.2)) →
      identify_by_vid_pid port = none) ∧
    (∀ s, identify_by_vid_pid port = some s →
      ∃ v i, port.vid = some v ∧ port.pid = some i ∧ (s, v, i) ∈ KNOWN_DEVICES) ∧
    (port.vid = some 0x2341 → port.pid = some 0x0043 →
      identify_by_vid_pid port = some "Arduino Uno") ∧
    (port.vid = some 0x2341 → port.pid = some 0x0010 →
      identify_by_vid_pid port = some "Arduino Mega") ∧
    (port.vid = some 0x10C4 → port.pid = some 0xEA60 →
      identify_by_vid_pid port = some "ESP32") ∧
    (port.vid = some 0x1A86 → port.pid = some 0x7523 →
      identify_by_vid_pid port = some "ESP32_ALT") := by
  obtain ⟨dev, ds, vid, pid⟩ := port
  refine ⟨?_, ?_, ?_, ?_, ?_, ?_, ?_, ?_⟩
  · intro h; simp only at h; subst h; rfl
  · intro h; simp only at h; subst h
    cases vid <;> rfl
  · intro v i hv hi hnone
    simp only at hv hi; subst hv; subst hi
    unfold identify_by_vid_pid
    simp only [Option.map_eq_none']
    rw [List.find?_eq_none]
    intro d hd
    have := hnone d hd
    simp only [Bool.and_eq_true, beq_iff_eq]
    tauto
  · intro s hs; exact identify_mem _ s hs
  · intro hv hi; simp only at hv hi; subst hv; subst hi; rfl
  · intro hv hi; simp only at hv hi; subst hv; subst hi; rfl
  · intro hv hi; simp only at hv hi; subst hv; subst hi; rfl
  · intro hv hi; simp only at hv hi; subst hv; subst hi; rfl

/-! ## Claim C5: handshake verification -/

/-- C5: `verify_by_handshake` returns `True` exactly when the channel
opened, the buffer reset and the write succeeded, and the bytes read
contain `b"PONG"` as a contiguous substring; every failure path returns
`False` (the embedding is a total function — no exception escapes); and
the channel is closed on return exactly when it was opened (the `with`
block releases it on every path). -/
theorem verify_by_handshake_spec (p : HsPort) :
    ((verify_by_handshake p).result = true ↔
      (p.openOk = true ∧ p.resetOk = true ∧ p.writeOk = true ∧
        ∃ resp, p.readResult = some resp ∧ HANDSHAKE_RESPONSE <:+: resp)) ∧
    (verify_by_handshake p).closed = (verify_by_handshake p).opened := by
  obtain ⟨o, r, w, rd⟩ := p
  cases o <;> cases r <;> cases w <;> cases rd <;>
    simp [verify_by_handshake, containsTok_iff]

/-! ## Claim C9: close_connection idempotence -/

/-- C9: `close_connection` is idempotent — a second call equals a single
call; it is a no-op when the connection was never opened or is already
closed; and after any two consecutive calls the underlying channel
`close()` has run at most once more than before (no double release). -/
theorem close_connection_idempotent (s : UploaderState) :
    close_connection (close_connection s) = close_connection s ∧
    close_connection { serial_conn := none } = { serial_conn := none } ∧
    (∀ c : SerialConn, c.is_open = false →
      close_connection { serial_conn := some c } = { serial_conn := some c }) ∧
    (∀ c : SerialConn,
      (close_connection (close_connection { serial_conn := some c })).serial_conn.elim 0
          (fun c' => c'.closeCalls) ≤ c.closeCalls + 1) := by
  refine ⟨?_, rfl, ?_, ?_⟩
  · obtain ⟨conn⟩ := s
    cases conn with
    | none => rfl
    | some c =>
      obtain ⟨op, n⟩ := c
      cases op <;> simp [close_connection]
  · intro c h
    obtain ⟨op, n⟩ := c
    simp only at h; subst h
    simp [close_connection]
  · intro c
    obtain ⟨op, n⟩ := c
    cases op <;> simp [close_connection, Option.elim]

/-! ## Claim C7: display view -/

/-- C7 counterexample: a port whose vendor ID is present but zero is
rendered with the `"N/A"` sentinel, although the ID is not absent — the
source tests Python truthiness (`if port.vid`), not presence. -/
theorem get_all_devices_zero_id_cex :
    (get_all_devices [{ device := "COM7", descr := "USB", vid := some 0, pid := some 0x7523 }]).map
        (fun e => e.vidStr) = ["N/A"] ∧
    (some 0 : Option Nat) ≠ none := by
  constructor
  · rfl
  · decide

/-- C7 amended: every port's entry carries the registry label as
`device_type`, or `"Unknown"` when the port has no registry match, and
renders each ID in hexadecimal when the ID is present and nonzero, and
as the sentinel `"N/A"` exactly when the ID is absent or zero (the
source tests truthiness, so a present-but-zero ID also renders as
`"N/A"`). -/
theorem get_all_devices_display (ports : List PortInfo) (p : PortInfo) (hp : p ∈ ports) :
    ∃ e ∈ get_all_devices ports,
      e.port = p.device ∧
      (∀ s, identify_by_vid_pid p = some s → e.device_type = s) ∧
      (identify_by_vid_pid p = none → e.device_type = "Unknown") ∧
      (e.vidStr = "N/A" ↔ (p.vid = none ∨ p.vid = some 0)) ∧
      (∀ n, p.vid = some n → n ≠ 0 → e.vidStr = hexStr n) ∧
      (e.pidStr = "N/A" ↔ (p.pid = none ∨ p.pid = some 0)) ∧
      (∀ n, p.pid = some n → n ≠ 0 → e.pidStr = hexStr n) := by
  refine ⟨_, List.mem_map_of_mem _ hp, rfl, ?_, ?_, ?_, ?_, ?_, ?_⟩
  · intro s hs
    simp only [hs]
    rw [if_neg (identify_label_ne_empty p s hs)]
  · intro hnone
    simp only [hnone]
  · cases hv : p.vid with
    | none => simp [displayId]
    | some n =>
      by_cases hz : n = 0
      · subst hz; simp [displayId]
      · simp [displayId, hz, hexStr_ne_NA n]
  · intro n hn hz
    simp [hn, displayId, hz]
  · cases hv : p.pid with
    | none => simp [displayId]
    | some n =>
      by_cases hz : n = 0
      · subst hz; simp [displayId]
      · simp [displayId, hz, hexStr_ne_NA n]
  · intro n hn hz
    simp [hn, displayId, hz]

/-- Witness for the amended C7 theorem at a concrete port: an ESP32 with
both IDs present and nonzero. -/
theorem get_all_devices_display_witness :
    ∃ e ∈ get_all_devices [{ device := "COM3", descr := "CP2102", vid := some 0x10C4,
                             pid := some 0xEA60 }],
      e.port = "COM3" ∧ e.device_type = "ESP32" ∧ e.vidStr = hexStr 0x10C4 ∧
      e.pidStr = hexStr 0xEA60 := by
  obtain ⟨e, he, h1, h2, _, _, h5, _, h7⟩ :=
    get_all_devices_display
      [{ device := "COM3", descr := "CP2102", vid := some 0x10C4, pid := some 0xEA60 }]
      { device := "COM3", descr := "CP2102", vid := some 0x10C4, pid := some 0xEA60 }
      (by simp)
  exact ⟨e, he, h1, h2 "ESP32" rfl, h5 0x10C4 rfl (by decide), h7 0xEA60 rfl (by decide)⟩

/-! ## Claim C3: tiered detection policy -/

/-- C3: `detect_device` implements the tiered selection policy: an empty
port list yields `None`; otherwise the first verified identified
candidate in enumeration order wins; with no verified candidate, the
first identified candidate wins regardless of verification; with no
identified candidate at all, the handshake fallback probes every port in
order and returns the first responder as an `"Unknown"` device when
`try_handshake` is set, and `None` otherwise; and whenever some
candidate is verified, the returned candidate is verified (a verified
candidate is always preferred over an unverified one). -/
theorem detect_device_policy (ports : List PortInfo) (tryHs : Bool) (hs : String → Bool) :
    (ports = [] → detect_device ports tryHs hs = none) ∧
    (∀ c, (identifiedCandidates ports tryHs hs).find? (fun c' => c'.verified) = some c →
      detect_device ports tryHs hs = some c) ∧
    (∀ c, (identifiedCandidates ports tryHs hs).find? (fun c' => c'.verified) = none →
      (identifiedCandidates ports tryHs hs).head? = some c →
      detect_device ports tryHs hs = some c) ∧
    (identifiedCandidates ports tryHs hs = [] → tryHs = true →
      detect_device ports tryHs hs =
        (ports.find? (fun p => hs p.device)).map unknownCandidate) ∧
    (identifiedCandidates ports tryHs hs = [] → tryHs = false →
      detect_device ports tryHs hs = none) ∧
    (∀ c₀ ∈ identifiedCandidates ports tryHs hs, c₀.verified = true →
      ∃ c, detect_device ports tryHs hs = some c ∧ c.verified = true) := by
  have hne : ∀ c, c ∈ identifiedCandidates ports tryHs hs → ports ≠ [] := by
    intro c hc h
    subst h
    simp [identifiedCandidates] at hc
  have key : ∀ c, (identifiedCandidates ports tryHs hs).find? (fun c' => c'.verified) = some c →
      detect_device ports tryHs hs = some c := by
    intro c hfind
    have hmem := List.mem_of_find?_eq_some hfind
    have hports := hne c hmem
    rw [← head?_filter_eq_find?] at hfind
    obtain ⟨t, ht⟩ : ∃ t, (identifiedCandidates ports tryHs hs).filter (fun c' => c'.verified)
        = c :: t := by
      cases hf : (identifiedCandidates ports tryHs hs).filter (fun c' => c'.verified) with
      | nil => rw [hf] at hfind; exact absurd hfind (by simp)
      | cons a t =>
        rw [hf] at hfind
        simp only [List.head?_cons, Option.some.injEq] at hfind
        exact ⟨t, by rw [hfind]⟩
    unfold detect_device
    rw [if_neg (by simpa [List.isEmpty_iff] using hports), ht]
  refine ⟨?_, key, ?_, ?_, ?_, ?_⟩
  · intro h; subst h; rfl
  · intro c hfind hhead
    have hmem : c ∈ identifiedCandidates ports tryHs hs := by
      cases hc : identifiedCandidates ports tryHs hs with
      | nil => rw [hc] at hhead; exact absurd hhead (by simp)
      | cons a t =>
        rw [hc] at hhead
        simp only [List.head?_cons, Option.some.injEq] at hhead
        subst hhead; exact List.mem_cons_self _ _
    have hports := hne c hmem
    have hfilter : (identifiedCandidates ports tryHs hs).filter (fun c' => c'.verified) = [] := by
      rw [← List.head?_eq_none_iff, head?_filter_eq_find?]
      exact hfind
    obtain ⟨t, ht⟩ : ∃ t, identifiedCandidates ports tryHs hs = c :: t := by
      cases hc : identifiedCandidates ports tryHs hs with
      | nil => rw [hc] at hhead; exact absurd hhead (by simp)
      | cons a t =>
        rw [hc] at hhead
        simp only [List.head?_cons, Option.some.injEq] at hhead
        exact ⟨t, by rw [hhead]⟩
    unfold detect_device
    rw [if_neg (by simpa [List.isEmpty_iff] using hports), hfilter, ht]
  · intro hcand htry
    subst htry
    cases hp : ports with
    | nil => rfl
    | cons q qs =>
      unfold detect_device
      rw [← hp, if_neg (by simp [List.isEmpty_iff, hp]), hcand]
      simp [List.filter_nil]
  · intro hcand htry
    subst htry
    cases hp : ports with
    | nil => rfl
    | cons q qs =>
      unfold detect_device
      rw [← hp, if_neg (by simp [List.isEmpty_iff, hp]), hcand]
      simp [List.filter_nil]
  · intro c₀ hmem hver
    have : ∃ a ∈ identifiedCandidates ports tryHs hs, (fun c' => c'.verified) a = true :=
      ⟨c₀, hmem, hver⟩
    rw [← List.find?_isSome] at this
    obtain ⟨c, hc⟩ := Option.isSome_iff_exists.mp this
    exact ⟨c, key c hc, List.find?_some hc⟩

/-! ## Chunking lemmas -/

theorem getLast?_cons_ne {α : Type} (x : α) (l : List α) (h : l ≠ []) :
    (x :: l).getLast? = l.getLast? := by
  cases l with
  | nil => exact absurd rfl h
  | cons b t => exact List.getLast?_cons_cons

theorem readChunksF_fuel (C : Nat) :
    ∀ f₁ f₂ (bs : List Byte), bs.length < f₁ → bs.length < f₂ →
      readChunksF C f₁ bs = readChunksF C f₂ bs := by
  intro f₁
  induction f₁ with
  | zero => intro f₂ bs h₁ _; exact absurd h₁ (Nat.not_lt_zero _)
  | succ f₁ ih =>
    intro f₂ bs h₁ h₂
    cases f₂ with
    | zero => exact absurd h₂ (Nat.not_lt_zero _)
    | succ f₂ =>
      simp only [readChunksF]
      by_cases hc : C = 0 ∨ bs = []
      · rw [if_pos hc, if_pos hc]
      · push_neg at hc
        rw [if_neg (by tauto), if_neg (by tauto)]
        have hlb : 0 < bs.length := List.length_pos.mpr hc.2
        have hlc : 0 < C := Nat.pos_of_ne_zero hc.1
        have hd : (bs.drop C).length = bs.length - C := List.length_drop C bs
        rw [ih f₂ (bs.drop C) (by omega) (by omega)]

theorem readChunks_zero (bs : List Byte) : readChunks 0 bs = [] := by
  simp [readChunks, readChunksF]

theorem readChunks_nil (C : Nat) : readChunks C [] = [] := by
  cases C <;> rfl

theorem readChunks_cons (C : Nat) (hC : 0 < C) (bs : List Byte) (hbs : bs ≠ []) :
    readChunks C bs = bs.take C :: readChunks C (bs.drop C) := by
  unfold readChunks
  have h1 : readChunksF C (bs.length + 1) bs =
      bs.take C :: readChunksF C bs.length (bs.drop C) := by
    simp only [readChunksF]
    rw [if_neg (by push_neg; exact ⟨by omega, hbs⟩)]
  rw [h1]
  have hlb : 0 < bs.length := List.length_pos.mpr hbs
  have hd : (bs.drop C).length = bs.length - C := List.length_drop C bs
  rw [readChunksF_fuel C bs.length ((bs.drop C).length + 1) (bs.drop C) (by omega) (by omega)]

theorem readChunks_length (C : Nat) (hC : 0 < C) :
    ∀ (bs : List Byte), (readChunks C bs).length = (bs.length + C - 1) / C := by
  suffices h : ∀ n (bs : List Byte), bs.length ≤ n →
      (readChunks C bs).length = (bs.length + C - 1) / C by
    intro bs; exact h bs.length bs le_rfl
  intro n
  induction n with
  | zero =>
    intro bs h0
    have : bs = [] := List.length_eq_zero.mp (Nat.le_zero.mp h0)
    subst this
    rw [readChunks_nil]
    simp only [List.length_nil]
    symm
    apply Nat.div_eq_of_lt
    omega
  | succ n ih =>
    intro bs hlen
    by_cases hbs : bs = []
    · subst hbs
      rw [readChunks_nil]
      simp only [List.length_nil]
      symm
      apply Nat.div_eq_of_lt
      omega
    · rw [readChunks_cons C hC bs hbs]
      have hlb : 0 < bs.length := List.length_pos.mpr hbs
      have hd : (bs.drop C).length = bs.length - C := List.length_drop C bs
      rw [List.length_cons, ih (bs.drop C) (by omega)]
      by_cases hsmall : bs.length ≤ C
      · have h1 : bs.length - C = 0 := by omega
        rw [hd, h1]
        have e1 : (0 + C - 1) / C = 0 := Nat.div_eq_of_lt (by omega)
        have e2 : (bs.length + C - 1) / C = 1 := Nat.div_eq_of_lt_le (by omega) (by omega)
        omega
      · push_neg at hsmall
        have h2 : bs.length + C - 1 = (bs.length - C + C - 1) + C := by omega
        rw [hd, h2, Nat.add_div_right _ hC]

theorem readChunks_sum (C : Nat) (hC : 0 < C) :
    ∀ (bs : List Byte), ((readChunks C bs).map List.length).sum = bs.length := by
  suffices h : ∀ n (bs : List Byte), bs.length ≤ n →
      ((readChunks C bs).map List.length).sum = bs.length by
    intro bs; exact h bs.length bs le_rfl
  intro n
  induction n with
  | zero =>
    intro bs h0
    have : bs = [] := List.length_eq_zero.mp (Nat.le_zero.mp h0)
    subst this
    rw [readChunks_nil]; rfl
  | succ n ih =>
    intro bs hlen
    by_cases hbs : bs = []
    · subst hbs; rw [readChunks_nil]; rfl
    · rw [readChunks_cons C hC bs hbs]
      have hlb : 0 < bs.length := List.length_pos.mpr hbs
      have hd : (bs.drop C).length = bs.length - C := List.length_drop C bs
      rw [List.map_cons, List.sum_cons, ih (bs.drop C) (by omega)]
      rw [List.length_take, hd]
      omega

theorem readChunks_ne_nil (C : Nat) (hC : 0 < C) (bs : List Byte) (hbs : bs ≠ []) :
    readChunks C bs ≠ [] := by
  rw [readChunks_cons C hC bs hbs]
  exact List.cons_ne_nil _ _

theorem readChunks_dropLast_sizes (C : Nat) (hC : 0 < C) :
    ∀ (bs : List Byte), ∀ l ∈ (readChunks C bs).dropLast, l.length = C := by
  suffices h : ∀ n (bs : List Byte), bs.length ≤ n →
      ∀ l ∈ (readChunks C bs).dropLast, l.length = C by
    intro bs; exact h bs.length bs le_rfl
  intro n
  induction n with
  | zero =>
    intro bs h0 l hl
    have : bs = [] := List.length_eq_zero.mp (Nat.le_zero.mp h0)
    subst this
    rw [readChunks_nil] at hl
    exact absurd hl (by simp)
  | succ n ih =>
    intro bs hlen l hl
    by_cases hbs : bs = []
    · subst hbs; rw [readChunks_nil] at hl; exact absurd hl (by simp)
    · rw [readChunks_cons C hC bs hbs] at hl
      have hlb : 0 < bs.length := List.length_pos.mpr hbs
      have hd : (bs.drop C).length = bs.length - C := List.length_drop C bs
      by_cases hsmall : bs.length ≤ C
      · have : bs.drop C = [] := List.drop_eq_nil_of_le hsmall
        rw [this, readChunks_nil] at hl
        exact absurd hl (by simp)
      · push_neg at hsmall
        have hdne : bs.drop C ≠ [] := by
          intro h
          rw [h] at hd
          simp at hd
          omega
        rw [List.dropLast_cons_of_ne_nil (readChunks_ne_nil C hC _ hdne)] at hl
        rcases List.mem_cons.mp hl with h | h
        · subst h
          rw [List.length_take]
          omega
        · exact ih (bs.drop C) (by omega) l h

theorem readChunks_last_size (C : Nat) (hC : 0 < C) :
    ∀ (bs : List Byte), bs ≠ [] →
      ((readChunks C bs).map List.length).getLast? =
        some (if bs.length % C = 0 then C else bs.length % C) := by
  suffices h : ∀ n (bs : List Byte), bs.length ≤ n → bs ≠ [] →
      ((readChunks C bs).map List.length).getLast? =
        some (if bs.length % C = 0 then C else bs.length % C) by
    intro bs; exact h bs.length bs le_rfl
  intro n
  induction n with
  | zero =>
    intro bs h0 hbs
    exact absurd (List.length_eq_zero.mp (Nat.le_zero.mp h0)) hbs
  | succ n ih =>
    intro bs hlen hbs
    rw [readChunks_cons C hC bs hbs]
    have hlb : 0 < bs.length := List.length_pos.mpr hbs
    have hd : (bs.drop C).length = bs.length - C := List.length_drop C bs
    by_cases hsmall : bs.length ≤ C
    · have : bs.drop C = [] := List.drop_eq_nil_of_le hsmall
      rw [this, readChunks_nil]
      simp only [List.map_cons, List.map_nil, List.getLast?_singleton, Option.some.injEq,
        List.length_take]
      by_cases heq : bs.length = C
      · rw [heq, Nat.mod_self, if_pos rfl]
        omega
      · rw [Nat.mod_eq_of_lt (by omega), if_neg (by omega)]
        omega
    · push_neg at hsmall
      have hdne : bs.drop C ≠ [] := by
        intro h
        rw [h] at hd
        simp at hd
        omega
      have htback := ih (bs.drop C) (by omega) hdne
      have hmapne : ((readChunks C (bs.drop C)).map List.length) ≠ [] := by
        simp [readChunks_ne_nil C hC _ hdne]
      rw [List.map_cons, getLast?_cons_ne _ _ hmapne, htback, hd]
      have : (bs.length - C) % C = bs.length % C := by
        conv_rhs => rw [(by omega : bs.length = (bs.length - C) + C)]
        rw [Nat.add_mod_right]
      rw [this]

/-! ## Loop characterization -/

/-- The progress-callback invocations the chunk loop performs, given the
chunks it reads and the `bytes_sent` already accumulated: after each
chunk, the callback receives `(pyPercent sent total, sent, total)`. -/
def progCalls (N : Nat) : Nat → List (List Byte) → List (Nat × Nat × Nat)
  | _, [] => []
  | sent, c :: cs =>
      (pyPercent (sent + c.length) N, sent + c.length, N) :: progCalls N (sent + c.length) cs

theorem progCalls_ne_nil (N sent : Nat) (c : List Byte) (cs : List (List Byte)) :
    progCalls N sent (c :: cs) ≠ [] := by
  simp [progCalls]

theorem progCalls_getLast (N : Nat) :
    ∀ (chunks : List (List Byte)) (sent : Nat), chunks ≠ [] →
      (progCalls N sent chunks).getLast? =
        some (pyPercent (sent + (chunks.map List.length).sum) N,
              sent + (chunks.map List.length).sum, N) := by
  intro chunks
  induction chunks with
  | nil => intro sent h; exact absurd rfl h
  | cons c cs ih =>
    intro sent _
    cases cs with
    | nil =>
      simp [progCalls]
    | cons c' cs' =>
      rw [progCalls, getLast?_cons_ne _ _ (progCalls_ne_nil N _ c' cs'),
        ih (sent + c.length) (List.cons_ne_nil _ _)]
      simp only [List.map_cons, List.sum_cons, Option.some.injEq, Prod.mk.injEq]
      constructor
      · congr 1
        omega
      · constructor
        · omega
        · trivial

/-- The chunk loop with no write failure and no callback failure runs to
completion: it sends every byte, writes exactly the chunks of the file,
invokes the callback once per chunk (when one is supplied), and advances
the write index once per chunk. -/
theorem uploadLoopF_no_fail (C N : Nat) (hasCb : Bool) (hC : 0 < C) :
    ∀ (fuel : Nat) (rem : List Byte) (sent wIdx cIdx : Nat), rem.length < fuel →
      uploadLoopF C N hasCb none none fuel rem sent wIdx cIdx =
        { exit := .done, sent := sent + rem.length,
          writes := (readChunks C rem).map .data,
          calls := if hasCb then progCalls N sent (readChunks C rem) else [],
          wIdx := wIdx + (readChunks C rem).length } := by
  intro fuel
  induction fuel with
  | zero => intro rem sent wIdx cIdx h; exact absurd h (Nat.not_lt_zero _)
  | succ fuel ih =>
    intro rem sent wIdx cIdx hlen
    by_cases hrem : rem = []
    · subst hrem
      simp [uploadLoopF, readChunks_nil, progCalls]
    · have hlb : 0 < rem.length := List.length_pos.mpr hrem
      have hd : (rem.drop C).length = rem.length - C := List.length_drop C rem
      have hfuel : (rem.drop C).length < fuel := by omega
      rw [uploadLoopF]
      rw [if_neg (by push_neg; exact ⟨by omega, hrem⟩)]
      rw [if_neg (by simp)]
      have hcons := readChunks_cons C hC rem hrem
      cases hasCb with
      | false =>
        simp only [Bool.false_eq_true, if_false, ite_false]
        rw [ih (rem.drop C) (sent + (rem.take C).length) (wIdx + 1) cIdx hfuel]
        rw [hcons]
        simp [LoopRes.mk.injEq, List.length_take, progCalls]
        try omega
      | true =>
        simp only [if_true, ite_true]
        rw [if_neg (by simp)]
        rw [ih (rem.drop C) (sent + (rem.take C).length) (wIdx + 1) (cIdx + 1) hfuel]
        rw [hcons]
        simp [LoopRes.mk.injEq, List.length_take, progCalls]
        try omega

/-- The chunk loop with a progress callback that raises at invocation
index `k` (0-based, counted from `cIdx`): the loop writes the chunks up
to and including the one whose callback raised, performs the callback
invocations up to and including the raising one, and exits with the
callback error. -/
theorem uploadLoopF_cb_raise (C N k : Nat) (hC : 0 < C) :
    ∀ (fuel : Nat) (rem : List Byte) (sent wIdx cIdx : Nat), rem.length < fuel →
      cIdx ≤ k → k - cIdx < (readChunks C rem).length →
      uploadLoopF C N true (some k) none fuel rem sent wIdx cIdx =
        { exit := .cbErr,
          sent := sent + (((readChunks C rem).take (k - cIdx + 1)).map List.length).sum,
          writes := ((readChunks C rem).take (k - cIdx + 1)).map .data,
          calls := (progCalls N sent (readChunks C rem)).take (k - cIdx + 1),
          wIdx := wIdx + (k - cIdx + 1) } := by
  intro fuel
  induction fuel with
  | zero => intro rem sent wIdx cIdx h _ _; exact absurd h (Nat.not_lt_zero _)
  | succ fuel ih =>
    intro rem sent wIdx cIdx hlen hck hkn
    by_cases hrem : rem = []
    · subst hrem
      rw [readChunks_nil] at hkn
      exact absurd hkn (by simp)
    · have hlb : 0 < rem.length := List.length_pos.mpr hrem
      have hd : (rem.drop C).length = rem.length - C := List.length_drop C rem
      have hcons := readChunks_cons C hC rem hrem
      rw [uploadLoopF]
      rw [if_neg (by push_neg; exact ⟨by omega, hrem⟩)]
      rw [if_neg (by simp)]
      simp only [if_true, ite_true]
      by_cases hk : k = cIdx
      · rw [if_pos (by rw [hk])]
        rw [hcons]
        subst hk
        simp [progCalls, List.take_succ_cons]
      · rw [if_neg (by simp; omega)]
        have hfuel : (rem.drop C).length < fuel := by omega
        have hkn' : k - (cIdx + 1) < (readChunks C (rem.drop C)).length := by
          rw [hcons, List.length_cons] at hkn
          omega
        rw [ih (rem.drop C) (sent + (rem.take C).length) (wIdx + 1) (cIdx + 1) hfuel
          (by omega) hkn']
        rw [hcons]
        have hj : k - (cIdx + 1) + 1 = k - cIdx := by omega
        rw [hj]
        have hk1 : k - cIdx + 1 = (k - cIdx) + 1 := rfl
        simp [progCalls, List.take_succ_cons, LoopRes.mk.injEq]
        constructor
        · omega
        · omega

/-! ## The final progress value -/

theorem roundNE_exact (a b : Nat) (ha : 0 < a) : roundNE (a * b) a = b := by
  simp only [roundNE, Nat.mul_div_cancel_left _ ha, Nat.mul_mod_right]
  rw [if_pos (by omega)]

/-- Binary64 division of a positive value by itself is exactly `1.0`
(significand `2^52`, exponent 0): the quotient is exactly
representable, so correct rounding returns it. -/
theorem divF_self (a : Nat) (ha : 0 < a) : divF a a = { m := 2 ^ 52, e := 0 } := by
  unfold divF
  simp only [le_refl, if_true, sub_self, sub_zero, ite_true]
  norm_num
  rw [roundNE_exact a _ ha]
  unfold normF
  decide

/-- The final progress value: when `bytes_sent = file_size`, the float
computation `int((bytes_sent / file_size) * 100)` yields exactly 100 —
the division is exactly `1.0` and `1.0 * 100.0` is exactly `100.0`. -/
theorem pyPercent_self (N : Nat) (h : 0 < N) : pyPercent N N = 100 := by
  unfold pyPercent
  rw [divF_self N h]
  decide

theorem progCalls_mem_total (N : Nat) :
    ∀ (chunks : List (List Byte)) (sent : Nat) (c : Nat × Nat × Nat),
      c ∈ progCalls N sent chunks → c.2.2 = N := by
  intro chunks
  induction chunks with
  | nil => intro sent c hc; exact absurd hc (by simp [progCalls])
  | cons ch cs ih =>
    intro sent c hc
    rcases List.mem_cons.mp hc with h | h
    · rw [h]
    · exact ih _ c h

/-! ## Claim C1: upload byte-exactness and chunking -/

/-- C1: a successful upload (open connection, existing nonempty file, no
channel or callback failure) returns `bytes_sent = N`; the channel sees
the start marker, then exactly `ceil(N/C)` payload writes, then the
completion marker; every payload write except the last has size `C`,
and the last has size `N mod C` when `C` does not divide `N` (size `C`
when it does). -/
theorem upload_firmware_chunking (env : UploadEnv) (bs : List Byte)
    (hopen : env.connOpen = true)
    (hfs : env.fs env.firmware_path = some bs)
    (hbs : bs ≠ []) (hC : 0 < env.chunk_size)
    (hcb : env.cbFail = none) (hwf : env.wFail = none) :
    (upload_firmware env).result.success = true ∧
    (upload_firmware env).result.bytes_sent = some bs.length ∧
    (upload_firmware env).writes =
      .start :: (readChunks env.chunk_size bs).map .data ++ [.complete] ∧
    (readChunks env.chunk_size bs).length =
      (bs.length + env.chunk_size - 1) / env.chunk_size ∧
    (∀ l ∈ (readChunks env.chunk_size bs).dropLast, l.length = env.chunk_size) ∧
    ((readChunks env.chunk_size bs).map List.length).getLast? =
      some (if bs.length % env.chunk_size = 0 then env.chunk_size
            else bs.length % env.chunk_size) := by
  have hloop := uploadLoopF_no_fail env.chunk_size bs.length env.hasCb hC (bs.length + 1)
      bs 0 1 0 (by omega)
  refine ⟨?_, ?_, ?_, readChunks_length _ hC bs, readChunks_dropLast_sizes _ hC bs,
    readChunks_last_size _ hC bs hbs⟩ <;>
    simp [upload_firmware, hopen, hfs, hcb, hwf, uploadLoop, hloop]

/-- Witness environment for C1: a five-byte file in chunks of two. -/
def envC1 : UploadEnv :=
  { connOpen := true, firmware_path := "app.bin",
    fs := fun _ => some [10, 20, 30, 40, 50], chunk_size := 2,
    hasCb := false, cbFail := none, cbErrMsg := "", wFail := none,
    serialErrMsg := "", deviceResponse := [79, 75] }

theorem upload_firmware_chunking_witness :
    (upload_firmware envC1).result.success = true ∧
    (upload_firmware envC1).result.bytes_sent = some 5 ∧
    (upload_firmware envC1).writes =
      [.start, .data [10, 20], .data [30, 40], .data [50], .complete] := by
  have h := upload_firmware_chunking envC1 [10, 20, 30, 40, 50] rfl rfl
    (by decide) (by decide) rfl rfl
  refine ⟨h.1, h.2.1, ?_⟩
  rw [h.2.2.1]
  rfl

/-! ## Claim C6: failure guards -/

/-- C6: with the connection not open, `upload_firmware` returns a
failure dict at once, with no filesystem access and no channel write;
with the connection open but the file missing, it returns a failure
dict (no raised error) whose message names the path. -/
theorem upload_firmware_guard (env : UploadEnv) :
    (env.connOpen = false →
      (upload_firmware env).result.success = false ∧
      (upload_firmware env).result.message = "Serial connection not open" ∧
      (upload_firmware env).fsAccessed = false ∧
      (upload_firmware env).writes = []) ∧
    (env.connOpen = true → env.fs env.firmware_path = none →
      (upload_firmware env).result.success = false ∧
      (upload_firmware env).result.message =
        "Firmware file not found: " ++ env.firmware_path ∧
      (upload_firmware env).writes = []) := by
  constructor
  · intro h
    simp [upload_firmware, h]
  · intro h hfs
    simp [upload_firmware, h, hfs]

/-- Witness environment for C6, connection never opened. -/
def envC6a : UploadEnv :=
  { connOpen := false, firmware_path := "fw.hex", fs := fun _ => none,
    chunk_size := 64, hasCb := false, cbFail := none, cbErrMsg := "", wFail := none,
    serialErrMsg := "", deviceResponse := [] }

/-- Witness environment for C6, open connection but missing file. -/
def envC6b : UploadEnv :=
  { connOpen := true, firmware_path := "fw.hex", fs := fun _ => none,
    chunk_size := 64, hasCb := false, cbFail := none, cbErrMsg := "", wFail := none,
    serialErrMsg := "", deviceResponse := [] }

theorem upload_firmware_guard_witness :
    (upload_firmware envC6a).result.message = "Serial connection not open" ∧
    (upload_firmware envC6a).fsAccessed = false ∧
    (upload_firmware envC6b).result.message = "Firmware file not found: fw.hex" := by
  refine ⟨((upload_firmware_guard envC6a).1 rfl).2.1,
    ((upload_firmware_guard envC6a).1 rfl).2.2.1, ?_⟩
  have h := (upload_firmware_guard envC6b).2 rfl rfl
  rw [h.2.1]
  rfl

/-! ## Claim C10: a raising progress callback -/

/-- C10: when the caller's progress callback raises at its `k`-th
invocation, `upload_firmware` catches the exception and returns a
failure dict carrying the exception's description; the start marker and
the chunks written up to that point (including the one whose callback
raised) stay written, the callback invocations up to and including the
raising one happened, and the connection remains open. -/
theorem upload_firmware_cb_exception (env : UploadEnv) (bs : List Byte) (k : Nat)
    (hopen : env.connOpen = true)
    (hfs : env.fs env.firmware_path = some bs)
    (hC : 0 < env.chunk_size)
    (hhc : env.hasCb = true) (hk : env.cbFail = some k) (hwf : env.wFail = none)
    (hkn : k < (readChunks env.chunk_size bs).length) :
    (upload_firmware env).result.success = false ∧
    (upload_firmware env).result.message = "Upload failed: " ++ env.cbErrMsg ∧
    (upload_firmware env).writes =
      .start :: ((readChunks env.chunk_size bs).take (k + 1)).map .data ∧
    (upload_firmware env).calls =
      (progCalls bs.length 0 (readChunks env.chunk_size bs)).take (k + 1) ∧
    (upload_firmware env).connOpenAfter = true := by
  have hloop := uploadLoopF_cb_raise env.chunk_size bs.length k hC (bs.length + 1)
      bs 0 1 0 (by omega) (Nat.zero_le k) (by simpa using hkn)
  refine ⟨?_, ?_, ?_, ?_, ?_⟩ <;>
    simp [upload_firmware, hopen, hfs, hhc, hk, hwf, uploadLoop, hloop]

/-- Witness environment for C10: callback raises at its first
invocation. -/
def envC10 : UploadEnv :=
  { connOpen := true, firmware_path := "app.bin", fs := fun _ => some [1, 2, 3, 4],
    chunk_size := 2, hasCb := true, cbFail := some 0, cbErrMsg := "boom", wFail := none,
    serialErrMsg := "", deviceResponse := [] }

theorem upload_firmware_cb_exception_witness :
    (upload_firmware envC10).result.success = false ∧
    (upload_firmware envC10).result.message = "Upload failed: boom" ∧
    (upload_firmware envC10).writes = [.start, .data [1, 2]] ∧
    (upload_firmware envC10).connOpenAfter = true := by
  have h := upload_firmware_cb_exception envC10 [1, 2, 3, 4] 0 rfl rfl
    (by decide) rfl rfl rfl (by decide)
  refine ⟨h.1, by rw [h.2.1]; rfl, by rw [h.2.2.1]; rfl, h.2.2.2.2⟩

/-! ## Claim C2: progress percentages -/

/-- Counterexample environment for C2: a 100-byte file in chunks of 29
bytes. -/
def envC2 : UploadEnv :=
  { connOpen := true, firmware_path := "fw.bin",
    fs := fun _ => some (List.replicate 100 7), chunk_size := 29,
    hasCb := true, cbFail := none, cbErrMsg := "", wFail := none,
    serialErrMsg := "", deviceResponse := [] }

/-- C2 counterexample: uploading a 100-byte file with chunk size 29, the
first callback invocation receives percent 28, but exact integer
arithmetic gives `floor(29 * 100 / 100) = 29`: the source computes
`int((bytes_sent / file_size) * 100)` in binary64 floats, and
`(29 / 100) * 100` rounds to `28.999999999999996`, which `int`
truncates to 28. -/
theorem upload_percent_float_cex :
    (upload_firmware envC2).calls.head? = some (28, 29, 100) ∧
    29 * 100 / 100 = 29 ∧ (28 : Nat) ≠ 29 := by
  refine ⟨by decide, by decide, by decide⟩

/-- C2 amended: every callback invocation receives
`(pyPercent bytes_sent N, bytes_sent, N)`, one invocation per chunk
with cumulative byte counts, where `pyPercent` is the binary64
evaluation of `int((bytes_sent / file_size) * 100)` — equal to the exact
integer floor for most inputs but one below it at inputs such as
29/100; `N` is the true total in every invocation; and the final
invocation reports exactly 100 percent with `bytes_sent = N`. -/
theorem upload_firmware_progress (env : UploadEnv) (bs : List Byte)
    (hopen : env.connOpen = true)
    (hfs : env.fs env.firmware_path = some bs)
    (hbs : bs ≠ []) (hC : 0 < env.chunk_size)
    (hhc : env.hasCb = true) (hcb : env.cbFail = none) (hwf : env.wFail = none) :
    (upload_firmware env).calls =
      progCalls bs.length 0 (readChunks env.chunk_size bs) ∧
    (∀ c ∈ (upload_firmware env).calls, c.2.2 = bs.length) ∧
    (upload_firmware env).calls.getLast? = some (100, bs.length, bs.length) := by
  have hloop := uploadLoopF_no_fail env.chunk_size bs.length true hC (bs.length + 1)
      bs 0 1 0 (by omega)
  have hcalls : (upload_firmware env).calls =
      progCalls bs.length 0 (readChunks env.chunk_size bs) := by
    simp [upload_firmware, hopen, hfs, hcb, hwf, uploadLoop, hloop, hhc]
  have hlb : 0 < bs.length := List.length_pos.mpr hbs
  refine ⟨hcalls, ?_, ?_⟩
  · rw [hcalls]
    intro c hc
    exact progCalls_mem_total _ _ _ c hc
  · rw [hcalls, progCalls_getLast _ _ 0 (readChunks_ne_nil _ hC bs hbs),
      readChunks_sum _ hC bs, Nat.zero_add, pyPercent_self bs.length hlb]

/-- Witness environment for the amended C2 theorem: two bytes in chunks
of one. -/
def envC2w : UploadEnv :=
  { connOpen := true, firmware_path := "fw.bin", fs := fun _ => some [5, 6],
    chunk_size := 1, hasCb := true, cbFail := none, cbErrMsg := "", wFail := none,
    serialErrMsg := "", deviceResponse := [] }

theorem upload_firmware_progress_witness :
    (upload_firmware envC2w).calls = [(50, 1, 2), (100, 2, 2)] ∧
    (upload_firmware envC2w).calls.getLast? = some (100, 2, 2) := by
  have h := upload_firmware_progress envC2w [5, 6] rfl rfl (by decide) (by decide)
    rfl rfl rfl
  refine ⟨?_, by rw [h.2.2]; rfl⟩
  rw [h.1]
  decide

/-! ## Claim C8: channel release -/

/-- Counterexample environment for C8: a successful three-byte upload. -/
def envC8 : UploadEnv :=
  { connOpen := true, firmware_path := "blink.hex", fs := fun _ => some [1, 2, 3],
    chunk_size := 64, hasCb := false, cbFail := none, cbErrMsg := "", wFail := none,
    serialErrMsg := "", deviceResponse := [] }

/-- C8 counterexample: after a successful `upload_firmware` the serial
connection is still open — the uploader does not release the channel it
was using before returning (no path of `upload_firmware` calls
`close_connection`); release is the caller's job. -/
theorem upload_leaves_channel_open_cex :
    (upload_firmware envC8).result.success = true ∧
    (upload_firmware envC8).connOpenAfter = true := by
  refine ⟨by decide, by decide⟩

/-- C8 amended: the detector's handshake closes its short-lived channel
before returning on every path (whenever it opened one), but the
uploader's upload never closes the connection it uses: `upload_firmware`
returns with the connection exactly as open as it found it, on the
success path and on every error path, and its caller releases it via
`close_connection`. -/
theorem channel_release_spec (p : HsPort) (env : UploadEnv) :
    ((verify_by_handshake p).opened = true → (verify_by_handshake p).closed = true) ∧
    (upload_firmware env).connOpenAfter = env.connOpen := by
  constructor
  · intro h
    obtain ⟨o, r, w, rd⟩ := p
    cases o <;> cases r <;> cases w <;> cases rd <;> simp_all [verify_by_handshake]
  · cases hco : env.connOpen with
    | false => simp [upload_firmware, hco]
    | true =>
      unfold upload_firmware
      rw [hco]
      simp only [Bool.not_true, Bool.false_eq_true, if_false, ite_false]
      split
      · rfl
      · split
        · rfl
        · split <;> first | rfl | (split <;> rfl)

/-- Channel behaviour used by the amended C8 witness: the channel opens
but the handshake write raises. -/
def hsPortW : HsPort :=
  { openOk := true, resetOk := true, writeOk := false, readResult := none }

/-- Witness for the amended C8 theorem: a handshake that opened its
channel has closed it, and a failed upload left the open connection
open. -/
theorem channel_release_spec_witness :
    (verify_by_handshake hsPortW).closed = true ∧
    (upload_firmware envC6b).connOpenAfter = true := by
  refine ⟨(channel_release_spec hsPortW envC6b).1 rfl, ?_⟩
  have h := (channel_release_spec hsPortW envC6b).2
  rw [h]
  rfl
